import Mathlib

/-!
Shallow embedding of `draw.py` (DrawMeATree): the wt-trace parser, the
incremental tree builder with filter propagation, and the node attribute
resolution used for rendering.  Machine integers are modelled as `Int`
(Python integers are unbounded), strings as Lean `String` (sequences of
unicode characters, like Python `str`), and raised exceptions as `Except`
errors.
-/

namespace Draw

/-- An `anytree` node as built by `draw.py`: a name and an ordered list of
children (insertion order).  Parent pointers are represented implicitly by
the builder's cursor stack below. -/
inductive T where
  | mk (label : String) (children : List T)

mutual
/-- Pre-order label sequence of a tree: the node's label, then the
pre-order sequences of its children in order. -/
def preT : T → List String
  | .mk l cs => l :: preF cs
/-- Pre-order label sequences of a forest, concatenated in order. -/
def preF : List T → List String
  | [] => []
  | t :: ts => preT t ++ preF ts
end

/-- One open node on the path from the root to the builder's cursor
`curr_node`: its label and the children completed so far (in insertion
order). -/
structure Frame where
  label : String
  children : List T

/-- Exceptions raised inside `adding_to_tree`: the explicit
`raise ValueError(...)` (carrying `curr_lvl`, `function`, `index` and
`curr_node.name` exactly as the source message does), and the
`AttributeError` that Python raises when `curr_node` is `None` and the code
accesses `curr_node.parent` or `curr_node.name`. -/
inductive Err where
  | valueError (lvl : Int) (function : String) (index : Int) (nodeName : String)
  | attributeError
deriving DecidableEq, Repr

/-- Builder state threaded through `generate_tree`'s loop:
`rooted` models `tree is not None` (the `tree` variable holds the root),
`stack` is the path of open nodes from `curr_node` (head) down to the
root (last), and `lvl` is `curr_lvl`.  `stack = []` models
`curr_node is None`. -/
structure BState where
  rooted : Bool
  stack : List Frame
  lvl : Int

/-- Close a frame into a tree node. -/
def Frame.toT (f : Frame) : T := T.mk f.label f.children

/-- One step of `curr_node = curr_node.parent`: the cursor's frame is
finished and becomes the last child of the frame below it.  On an empty
stack (`curr_node is None`) Python raises `AttributeError`; on a singleton
stack the cursor becomes `None`. -/
def popOne : List Frame → Except Err (List Frame)
  | [] => .error .attributeError
  | [_] => .ok []
  | f :: g :: rest => .ok ({ label := g.label, children := g.children ++ [f.toT] } :: rest)

/-- `for i in range(k): curr_node = curr_node.parent`. -/
def popK : Nat → List Frame → Except Err (List Frame)
  | 0, st => .ok st
  | k + 1, st =>
    match popOne st with
    | .error e => .error e
    | .ok st2 => popK k st2

/-- `adding_to_tree(tree, curr_node, curr_lvl, index, function)` from
`draw.py`.  Branches in source order: `index == 0` (create the root if
`tree is None`, else `pass`), `index == curr_lvl + 1` (new child),
`index < curr_lvl` (walk up, no node created), `index == curr_lvl`
(sibling: child of `curr_node.parent`), otherwise `raise ValueError`. -/
def adding_to_tree (s : BState) (index : Int) (function : String) : Except Err BState :=
  if index = 0 then
    if s.rooted = false then
      .ok { rooted := true, stack := [{ label := function, children := [] }], lvl := 0 }
    else
      .ok s
  else if index = s.lvl + 1 then
    .ok { rooted := s.rooted, stack := { label := function, children := [] } :: s.stack,
          lvl := s.lvl + 1 }
  else if index < s.lvl then
    match popK (s.lvl - index).toNat s.stack with
    | .error e => .error e
    | .ok st => .ok { rooted := s.rooted, stack := st, lvl := index }
  else if index = s.lvl then
    match popOne s.stack with
    | .error e => .error e
    | .ok st =>
      .ok { rooted := s.rooted, stack := { label := function, children := [] } :: st,
            lvl := s.lvl }
  else
    match s.stack with
    | [] => .error .attributeError
    | f :: _ => .error (.valueError s.lvl function index f.label)

/-- Fold the cursor path into the root's tree: repeatedly close the top
frame into the frame below it. -/
def collapseGo : Frame → List Frame → T
  | f, [] => T.mk f.label f.children
  | f, g :: rest => collapseGo { label := g.label, children := g.children ++ [f.toT] } rest

/-- The tree reachable from the root frame at the bottom of the stack. -/
def collapse : List Frame → Option T
  | [] => none
  | f :: rest => some (collapseGo f rest)

/-- `needle` is a prefix of the second list. -/
def isPrefixList : List Char → List Char → Bool
  | [], _ => true
  | _ :: _, [] => false
  | a :: as, b :: bs => a == b && isPrefixList as bs

/-- Occurrence of `needle` as a contiguous substring, i.e.
`hay.find(needle) != -1` in Python. -/
def containsSub (needle : List Char) : List Char → Bool
  | [] => needle.isEmpty
  | c :: rest => isPrefixList needle (c :: rest) || containsSub needle rest

/-- The filter scan of `generate_tree`: `function.find(f) != -1` for some
filter word `f`, with Python's early `break` folded into `any`. -/
def filterHit (fl : List String) (function : String) : Bool :=
  fl.any (fun w => containsSub w.toList function.toList)

/-- `next_index is not None and index > next_index`. -/
def skipDesc (nx : Option Int) (index : Int) : Bool :=
  match nx with
  | some n => decide (index > n)
  | none => false

/-- The `for entry in data` loop of `generate_tree`, threading the builder
state and `next_index`.  With `filters_list is None` the filter block is
skipped entirely. -/
def genLoop (fl? : Option (List String)) :
    List (Int × String) → BState → Option Int → Except Err BState
  | [], s, _ => .ok s
  | (index, function) :: rest, s, nx =>
    match fl? with
    | none =>
      match adding_to_tree s index function with
      | .error e => .error e
      | .ok s2 => genLoop fl? rest s2 nx
    | some fl =>
      if skipDesc nx index then
        genLoop fl? rest s nx
      else if filterHit fl function then
        genLoop fl? rest s (some index)
      else
        match adding_to_tree s index function with
        | .error e => .error e
        | .ok s2 => genLoop fl? rest s2 none

/-- `generate_tree(data, filters_list)`: run the loop from
`tree = None, curr_node = None, curr_lvl = 0, next_index = None` and
return the value of the `tree` variable (`none` when it was never set). -/
def generate_tree (data : List (Int × String)) (filters_list : Option (List String)) :
    Except Err (Option T) :=
  match genLoop filters_list data { rooted := false, stack := [], lvl := 0 } none with
  | .error e => .error e
  | .ok s => .ok (if s.rooted then collapse s.stack else none)

example : generate_tree [((0 : Int), "A"), (1, "B"), (2, "C"), (1, "D")] none
    = .ok (some (T.mk "A" [T.mk "B" [T.mk "C" []]])) := rfl

example : generate_tree [((0 : Int), "A"), (1, "Bad"), (2, "C"), (3, "D"), (1, "E")]
      (some ["Bad"]) = .ok (some (T.mk "A" [T.mk "E" []])) := rfl

example : preT (T.mk "A" [T.mk "B" [T.mk "C" []]]) = ["A", "B", "C"] := by decide

/-- ASCII whitespace as recognised by Python's `str.split()` (the trace
input is ASCII, so the unicode space classes are not modelled). -/
def isWs (c : Char) : Bool :=
  c = ' ' || c = '\t' || c = '\n' || c = '\r' || c = '\x0b' || c = '\x0c'

/-- Accumulating worker for Python's `str.split()`: split on runs of
whitespace, discarding empty words. -/
def pySplitAux (cur : List Char) : List Char → List (List Char)
  | [] => if cur.isEmpty then [] else [cur.reverse]
  | c :: rest =>
    if isWs c then
      if cur.isEmpty then pySplitAux [] rest
      else cur.reverse :: pySplitAux [] rest
    else
      pySplitAux (c :: cur) rest

/-- `line.split()` in Python: whitespace-delimited words of a line. -/
def pySplit (l : List Char) : List (List Char) := pySplitAux [] l

/-- The character class `[0-D]` of the parser's regular expression
`\[  [0-D].*$` where `D = str(filter_level)`; `filter_level` is restricted
by the CLI to a single digit 1..9. -/
def classHit (D : Nat) (c : Char) : Bool :=
  48 ≤ c.toNat && c.toNat ≤ 48 + D

/-- Whether the pattern `\[  [0-D]` matches at the head of the list (the
trailing `.*$` of the source pattern always matches). -/
def markerAt (D : Nat) : List Char → Bool
  | a :: b :: c :: d :: _ => a = '[' && b = ' ' && c = ' ' && classHit D d
  | _ => false

/-- `re.search(r"\[  [0-D].*$", line)`: the pattern matches at some
position of the line. -/
def regexHit (D : Nat) : List Char → Bool
  | [] => false
  | c :: rest => markerAt D (c :: rest) || regexHit D rest

/-- An ASCII decimal digit. -/
def isDigitCh (c : Char) : Bool :=
  48 ≤ c.toNat && c.toNat ≤ 57

/-- Digit-string accumulator for Python's `int()`: `none` at the first
non-digit character. -/
def digitsToNatGo (acc : Nat) : List Char → Option Nat
  | [] => some acc
  | c :: r => if isDigitCh c then digitsToNatGo (acc * 10 + (c.toNat - 48)) r else none

/-- Python's `int(token)` on a whitespace-free token: an optional single
sign followed by at least one decimal digit, else `ValueError` (`none`);
digit-group underscores and non-ASCII digits are outside the modelled
input alphabet. -/
def parsePyInt : List Char → Option Int
  | [] => none
  | c :: rest =>
    if c = '-' then
      match rest with
      | [] => none
      | _ => (digitsToNatGo 0 rest).map (fun n => -(n : Int))
    else if c = '+' then
      match rest with
      | [] => none
      | _ => (digitsToNatGo 0 rest).map (fun n => (n : Int))
    else (digitsToNatGo 0 (c :: rest)).map (fun n => (n : Int))

/-- Accumulating worker for Python's `str.split(sep)` with a one-character
separator; keeps empty pieces, never returns an empty list. -/
def splitOnCharAux (sep : Char) (cur : List Char) : List Char → List (List Char)
  | [] => [cur.reverse]
  | c :: rest =>
    if c = sep then cur.reverse :: splitOnCharAux sep [] rest
    else splitOnCharAux sep (c :: cur) rest

/-- `s.split(sep)` in Python for a one-character separator. -/
def splitOnChar (sep : Char) (l : List Char) : List (List Char) :=
  splitOnCharAux sep [] l

/-- `name.split("!")[0]`: the module part of a `module!symbol` label (the
whole label when it has no `!`). -/
def modulePart (s : String) : String :=
  String.mk ((splitOnChar '!' s.toList).headD [])

/-- `adding_to_module_list(function_module)` from `draw.py`, with the
global `MODULES_LIST` threaded explicitly: append the module part when it
is non-empty and not already present. -/
def adding_to_module_list (ms : List String) (function_module : String) : List String :=
  let module_node := modulePart function_module
  if module_node ≠ "" then
    if ms.contains module_node then ms else ms ++ [module_node]
  else ms

/-- The fixed colour palette of `determine_node_att`. -/
def colors : List String :=
  ["lightblue", "thistle", "wheat", "darkseagreen", "darksalmon", "papayawhip",
   "rosybrown", "lightcoral", "tan", "cadetblue", "plum"]

/-- `determine_node_att(node)` from `draw.py`, with `MODULES_LIST`
threaded explicitly.  The source loop returns at the first list element
equal to the node's module part, using its first index into the palette
(grey beyond the palette); falling through the loop raises `ValueError`,
modelled as `none`. -/
def determine_node_att (ms : List String) (nodeName : String) : Option String :=
  let module_node := modulePart nodeName
  if ms.contains module_node then
    let index := ms.indexOf module_node
    if colors.length ≤ index then some "shape=box, style=filled, fillcolor = grey"
    else some ("shape=box, style=filled, fillcolor = " ++ colors.getD index "")
  else none

/-- Exceptions raised by `parse_input_file`: `IndexError` from `words[3]`
or `words[4]` on a short line, `ValueError` from `int()` on a non-numeric
token, and the explicit `ValueError` when no line was parsed
(`EmptyResultError` in the specification's taxonomy). -/
inductive PErr where
  | indexError
  | intValueError (tok : String)
  | emptyResultError
deriving DecidableEq, Repr

/-- The `for line in data` loop of `parse_input_file`: on each line whose
text matches the regular expression, take `words[3]` stripped of `]` as
the depth and `words[4]` as the label, and record the label's module in
`MODULES_LIST` (threaded as `ms`). -/
def parseLoop (D : Nat) :
    List (List Char) → List (Int × String) → List String →
      Except PErr (List (Int × String) × List String)
  | [], acc, ms => .ok (acc, ms)
  | line :: rest, acc, ms =>
    if regexHit D line then
      match (pySplit line).get? 3 with
      | none => .error .indexError
      | some w3 =>
        match parsePyInt (w3.filter (fun c => c ≠ ']')) with
        | none => .error (.intValueError (String.mk w3))
        | some idx =>
          match (pySplit line).get? 4 with
          | none => .error .indexError
          | some w4 =>
            parseLoop D rest (acc ++ [(idx, String.mk w4)])
              (adding_to_module_list ms (String.mk w4))
    else parseLoop D rest acc ms

/-- `parse_input_file(wt_output_file, filter_level)` from `draw.py`, on
the file's lines: collect the parsed `(depth, label)` entries and the
module side channel; raise when nothing was parsed. -/
def parse_input_file (lines : List (List Char)) (D : Nat) :
    Except PErr (List (Int × String) × List String) :=
  match parseLoop D lines [] [] with
  | .error e => .error e
  | .ok ([], _) => .error .emptyResultError
  | .ok r => .ok r

example : parse_input_file ["   23     0 [  2] mod!fn".toList] 2
    = .ok ([((2 : Int), "mod!fn")], ["mod"]) := rfl

example : parse_input_file ["   23     0 [  2] mod!fn".toList] 1
    = .error .emptyResultError := rfl

example : parse_input_file ["0:000> [   2] module!func".toList] 2
    = .error .emptyResultError := rfl

example : parse_input_file ["x y [  0] !func".toList] 9
    = .ok ([((0 : Int), "!func")], []) := rfl

example : determine_node_att [] "!func" = none := rfl

example : determine_node_att ["mod"] "mod!fn"
    = some "shape=box, style=filled, fillcolor = lightblue" := rfl

/-! ## Helper lemmas about the builder's cursor stack -/

/-- Walking up `k` parent links succeeds whenever at least `k + 2` frames
are open, lands `k` frames up (same labels from there on down to the
root), and leaves the tree reachable from the root unchanged. -/
lemma popK_ok : ∀ (k : Nat) (st : List Frame), k + 2 ≤ st.length →
    ∃ st', popK k st = .ok st' ∧ st'.length = st.length - k ∧
      st'.map Frame.label = (st.map Frame.label).drop k ∧
      collapse st' = collapse st := by
  intro k
  induction k with
  | zero =>
    intro st h
    exact ⟨st, rfl, by omega, by simp, rfl⟩
  | succ k ih =>
    intro st h
    match st with
    | [] => simp at h
    | [f] => simp at h
    | f :: g :: r =>
      have h2 : k + 2 ≤
          (({ label := g.label, children := g.children ++ [f.toT] } : Frame) :: r).length := by
        simp only [List.length_cons] at h ⊢
        omega
      obtain ⟨st', h1, hlen, hlab, hcol⟩ := ih _ h2
      refine ⟨st', ?_, ?_, ?_, ?_⟩
      · show popK (k + 1) (f :: g :: r) = .ok st'
        simpa [popK, popOne] using h1
      · simp only [List.length_cons] at hlen ⊢
        omega
      · simpa using hlab
      · rw [hcol]
        rfl

/-! ## C10: a depth-0 entry after the root exists is silently ignored -/

/-- C10.  Once the root exists (`tree is not None`), an entry with stated
depth 0 is silently ignored by `adding_to_tree`: no node is created and
the whole carried state (`curr_node`, `curr_lvl`, the tree) is returned
unchanged, regardless of the current level. -/
theorem c10_depth_zero_ignored (s : BState) (function : String)
    (hr : s.rooted = true) :
    adding_to_tree s 0 function = .ok s := by
  simp [adding_to_tree, hr]

/-- Witness for C10 at a concrete state with `curr_lvl = 1 > 0`. -/
theorem c10_depth_zero_ignored_witness :
    ({ rooted := true, stack := [{ label := "B", children := [] },
        { label := "A", children := [] }], lvl := 1 } : BState).rooted = true ∧
      adding_to_tree { rooted := true, stack := [{ label := "B", children := [] },
        { label := "A", children := [] }], lvl := 1 } 0 "Z"
        = .ok { rooted := true, stack := [{ label := "B", children := [] },
            { label := "A", children := [] }], lvl := 1 } :=
  ⟨rfl, c10_depth_zero_ignored _ "Z" rfl⟩

/-! ## C1: the ascent rule -/

/-- A concrete builder state: root `A`, child `B`, grandchild `C`, cursor
on `C` at level 2. -/
def c1State : BState :=
  { rooted := true,
    stack := [{ label := "C", children := [] }, { label := "B", children := [] },
      { label := "A", children := [] }],
    lvl := 2 }

/-- Counterexample to C1 as stated: at stated depth 0 with
`current_level = 2` and a root existing, the builder does not ascend at
all — the `index == 0` branch returns the state unchanged, so
`current_level` stays 2 instead of becoming the claimed `index = 0`. -/
theorem c1_index_zero_cex :
    adding_to_tree c1State 0 "X" = .ok c1State ∧ c1State.lvl ≠ 0 :=
  ⟨rfl, by decide⟩

/-- C1 amended: the ascent behaviour holds for every stated depth with
`0 < index < current_level` (depth 0 is instead captured by the silent
`index == 0` branch).  The builder walks up exactly
`current_level - index` parent links — landing on the ancestor at depth
`index`, as the resulting cursor path of `index + 1` frames shows — sets
`current_level = index`, and creates no node: the label sequence of the
remaining path is the old one minus the frames walked out of, and the tree
reachable from the root is unchanged (the entry's label is discarded). -/
theorem c1_ascent_repositions_cursor (s : BState) (index : Int) (function : String)
    (hr : s.rooted = true) (h0 : 0 < index) (hlt : index < s.lvl)
    (hlen : s.stack.length = s.lvl.toNat + 1) :
    ∃ st', adding_to_tree s index function
        = .ok { rooted := true, stack := st', lvl := index } ∧
      st'.length = index.toNat + 1 ∧
      st'.map Frame.label = (s.stack.map Frame.label).drop (s.lvl - index).toNat ∧
      collapse st' = collapse s.stack := by
  have hk : (s.lvl - index).toNat + 2 ≤ s.stack.length := by omega
  obtain ⟨st', hpop, hl, hlab, hcol⟩ := popK_ok _ _ hk
  refine ⟨st', ?_, by omega, hlab, hcol⟩
  unfold adding_to_tree
  rw [if_neg (by omega), if_neg (by omega), if_pos (by omega), hpop, hr]

/-- Witness for the amended C1 at `c1State` with `index = 1`: the builder
pops exactly one link, landing on `B`. -/
theorem c1_ascent_repositions_cursor_witness :
    (c1State.rooted = true ∧ 0 < (1 : Int) ∧ (1 : Int) < c1State.lvl ∧
      c1State.stack.length = c1State.lvl.toNat + 1) ∧
    (∃ st', adding_to_tree c1State 1 "X"
        = .ok { rooted := true, stack := st', lvl := 1 } ∧
      st'.length = (1 : Int).toNat + 1 ∧
      st'.map Frame.label = (c1State.stack.map Frame.label).drop (c1State.lvl - 1).toNat ∧
      collapse st' = collapse c1State.stack) :=
  ⟨⟨rfl, by decide, by decide, by decide⟩,
    c1_ascent_repositions_cursor c1State 1 "X" rfl (by decide) (by decide) (by decide)⟩

/-! ## C2: the ascent example -/

/-- Counterexample to C2 as stated: on
`[(0,"A"),(1,"B"),(2,"C"),(1,"D")]` the unfiltered builder produces the
tree `A → B → C` and no node labelled `D` exists anywhere in it — the
entry `(1,"D")` triggers the ascent rule, which discards its label, so
`D` is not a child of `B`. -/
theorem c2_no_sibling_for_d_cex :
    generate_tree [((0 : Int), "A"), (1, "B"), (2, "C"), (1, "D")] none
        = .ok (some (T.mk "A" [T.mk "B" [T.mk "C" []]])) ∧
      "D" ∉ preT (T.mk "A" [T.mk "B" [T.mk "C" []]]) :=
  ⟨rfl, by decide⟩

/-- C2 amended: on `[(0,"A"),(1,"B"),(2,"C"),(1,"D")]` the tree is
`A → B → C`; the entry `(1,"D")` creates no node and only repositions the
cursor onto `B` at level 1 (as the final loop state shows). -/
theorem c2_ascent_example :
    generate_tree [((0 : Int), "A"), (1, "B"), (2, "C"), (1, "D")] none
        = .ok (some (T.mk "A" [T.mk "B" [T.mk "C" []]])) ∧
      genLoop none [((0 : Int), "A"), (1, "B"), (2, "C"), (1, "D")]
          { rooted := false, stack := [], lvl := 0 } none
        = .ok { rooted := true,
                stack := [{ label := "B", children := [T.mk "C" []] },
                  { label := "A", children := [] }],
                lvl := 1 } :=
  ⟨rfl, rfl⟩

/-! ## C3: subtree suppression example -/

/-- C3.  With entries `[(0,"A"),(1,"Bad"),(2,"C"),(3,"D"),(1,"E")]` and
filter list `["Bad"]`, the filtered tree is exactly root `A` with single
child `E`: its pre-order label sequence is `["A","E"]`, so `Bad`, `C` and
`D` are absent. -/
theorem c3_subtree_suppression :
    generate_tree [((0 : Int), "A"), (1, "Bad"), (2, "C"), (3, "D"), (1, "E")]
        (some ["Bad"]) = .ok (some (T.mk "A" [T.mk "E" []])) ∧
      preT (T.mk "A" [T.mk "E" []]) = ["A", "E"] :=
  ⟨rfl, by decide⟩

/-! ## C6: the structural contract violation -/

/-- C6.  After the root exists, an entry whose stated depth exceeds
`current_level + 1` (the only relationship left over by the other
branches, given a non-negative level) makes `adding_to_tree` raise the
`ValueError` carrying the current level, the offending entry's label, its
stated depth and the current node's name; the loop of `generate_tree`
propagates it immediately, so the whole run aborts with that error and the
remaining entries — arbitrary here — are never retried. -/
theorem c6_violation_aborts (s : BState) (index : Int) (function : String)
    (f : Frame) (tl : List Frame) (rest : List (Int × String)) (nx : Option Int)
    (_hr : s.rooted = true) (hst : s.stack = f :: tl)
    (h0 : 0 ≤ s.lvl) (hgt : s.lvl + 1 < index) :
    genLoop none ((index, function) :: rest) s nx
      = .error (.valueError s.lvl function index f.label) := by
  have hadd : adding_to_tree s index function
      = .error (.valueError s.lvl function index f.label) := by
    unfold adding_to_tree
    rw [if_neg (by omega), if_neg (by omega), if_neg (by omega), if_neg (by omega), hst]
  simp [genLoop, hadd]

/-- Witness for C6: from root `A` at level 0, the entry `(2, "X")` aborts
the run with the error naming `"X"` and `"A"`, with a further entry left
unprocessed. -/
theorem c6_violation_aborts_witness :
    (({ rooted := true, stack := [{ label := "A", children := [] }], lvl := 0 } : BState).rooted
        = true ∧
      ({ rooted := true, stack := [{ label := "A", children := [] }], lvl := 0 } : BState).stack
        = { label := "A", children := [] } :: [] ∧
      (0 : Int) ≤ 0 ∧ (0 : Int) + 1 < 2) ∧
    genLoop none [((2 : Int), "X"), (1, "Y")]
        { rooted := true, stack := [{ label := "A", children := [] }], lvl := 0 } none
      = .error (.valueError 0 "X" 2 "A") :=
  ⟨⟨rfl, rfl, by decide, by decide⟩,
    c6_violation_aborts _ 2 "X" _ [] [(1, "Y")] none rfl rfl (by decide) (by decide)⟩

/-! ## Label accounting for the builder state -/

/-- All labels stored in a cursor stack: for each open frame, its label
and the labels of its completed children, root last. -/
def stackPre : List Frame → List String
  | [] => []
  | f :: rest => stackPre rest ++ f.label :: preF f.children

lemma preF_append (a b : List T) : preF (a ++ b) = preF a ++ preF b := by
  induction a with
  | nil => simp [preF]
  | cons t ts ih => simp [preF, ih]

/-- Closing the top frame into the one below preserves the stored label
sequence. -/
lemma stackPre_merge (f g : Frame) (r : List Frame) :
    stackPre ({ label := g.label, children := g.children ++ [f.toT] } :: r)
      = stackPre (f :: g :: r) := by
  simp [stackPre, preF_append, preF, preT, Frame.toT]

/-- Pre-order of the collapsed tree is exactly the stack's stored label
sequence. -/
lemma collapseGo_pre : ∀ (rest : List Frame) (f : Frame),
    preT (collapseGo f rest) = stackPre (f :: rest) := by
  intro rest
  induction rest with
  | nil =>
    intro f
    simp only [collapseGo, stackPre]
    rfl
  | cons g r ih =>
    intro f
    rw [collapseGo, ih, stackPre_merge]

lemma popOne_labels {st st' : List Frame} (h : popOne st = .ok st') :
    ∀ l ∈ stackPre st', l ∈ stackPre st := by
  match st with
  | [] => simp [popOne] at h
  | [f] =>
    simp only [popOne, Except.ok.injEq] at h
    subst h
    simp [stackPre]
  | f :: g :: r =>
    simp only [popOne, Except.ok.injEq] at h
    subst h
    rw [stackPre_merge]
    exact fun l hl => hl

lemma popK_labels : ∀ {k : Nat} {st st' : List Frame}, popK k st = .ok st' →
    ∀ l ∈ stackPre st', l ∈ stackPre st := by
  intro k
  induction k with
  | zero =>
    intro st st' h
    simp only [popK, Except.ok.injEq] at h
    subst h
    exact fun l hl => hl
  | succ k ih =>
    intro st st' h
    rw [popK] at h
    cases h1 : popOne st with
    | error e => rw [h1] at h; cases h
    | ok st2 =>
      rw [h1] at h
      exact fun l hl => popOne_labels h1 l (ih h l hl)

/-- Every label stored after one `adding_to_tree` step was stored before
or is the processed entry's label. -/
lemma adding_to_tree_labels {s s2 : BState} {index : Int} {function : String}
    (h : adding_to_tree s index function = .ok s2) :
    ∀ l ∈ stackPre s2.stack, l ∈ stackPre s.stack ∨ l = function := by
  unfold adding_to_tree at h
  by_cases h0 : index = 0
  · rw [if_pos h0] at h
    by_cases hr : s.rooted = false
    · rw [if_pos hr] at h
      cases h
      intro l hl
      simp [stackPre, preF] at hl
      exact Or.inr hl
    · rw [if_neg hr] at h
      cases h
      exact fun l hl => Or.inl hl
  · rw [if_neg h0] at h
    by_cases h1 : index = s.lvl + 1
    · rw [if_pos h1] at h
      cases h
      intro l hl
      simp only [stackPre, preF] at hl
      rcases List.mem_append.mp hl with hl | hl
      · exact Or.inl hl
      · simp at hl
        exact Or.inr hl
    · rw [if_neg h1] at h
      by_cases h2 : index < s.lvl
      · rw [if_pos h2] at h
        cases h3 : popK (s.lvl - index).toNat s.stack with
        | error e => rw [h3] at h; cases h
        | ok st =>
          rw [h3] at h
          cases h
          exact fun l hl => Or.inl (popK_labels h3 l hl)
      · rw [if_neg h2] at h
        by_cases h4 : index = s.lvl
        · rw [if_pos h4] at h
          cases h5 : popOne s.stack with
          | error e => rw [h5] at h; cases h
          | ok st =>
            rw [h5] at h
            cases h
            intro l hl
            simp only [stackPre, preF] at hl
            rcases List.mem_append.mp hl with hl | hl
            · exact Or.inl (popOne_labels h5 l hl)
            · simp at hl
              exact Or.inr hl
        · rw [if_neg h4] at h
          cases h6 : s.stack with
          | nil => rw [h6] at h; cases h
          | cons f tl => rw [h6] at h; cases h

/-- Every label stored after a `generate_tree` loop run was stored at the
start or is the label of some consumed entry. -/
lemma genLoop_labels (fl? : Option (List String)) :
    ∀ (data : List (Int × String)) {s : BState} {nx : Option Int} {s2 : BState},
      genLoop fl? data s nx = .ok s2 →
      ∀ l ∈ stackPre s2.stack, l ∈ stackPre s.stack ∨ l ∈ data.map Prod.snd := by
  intro data
  induction data with
  | nil =>
    intro s nx s2 h
    simp only [genLoop, Except.ok.injEq] at h
    subst h
    exact fun l hl => Or.inl hl
  | cons e rest ih =>
    obtain ⟨i, fn⟩ := e
    intro s nx s2 h
    have step : ∀ {s3 : BState} {nx' : Option Int}, adding_to_tree s i fn = .ok s3 →
        genLoop fl? rest s3 nx' = .ok s2 →
        ∀ l ∈ stackPre s2.stack, l ∈ stackPre s.stack ∨ l ∈ ((i, fn) :: rest).map Prod.snd := by
      intro s3 nx' hadd hloop l hl
      rcases ih hloop l hl with hl2 | hl2
      · rcases adding_to_tree_labels hadd l hl2 with hl3 | hl3
        · exact Or.inl hl3
        · exact Or.inr (by simp [hl3])
      · exact Or.inr (by simp [hl2])
    cases fl? with
    | none =>
      rw [genLoop] at h
      cases hadd : adding_to_tree s i fn with
      | error e2 => rw [hadd] at h; cases h
      | ok s3 =>
        rw [hadd] at h
        have h' : genLoop none rest s3 nx = .ok s2 := h
        exact step hadd h'
    | some fl =>
      rw [genLoop] at h
      by_cases hskip : skipDesc nx i = true
      · rw [if_pos hskip] at h
        intro l hl
        rcases ih h l hl with hl2 | hl2
        · exact Or.inl hl2
        · exact Or.inr (by simp [hl2])
      · rw [if_neg hskip] at h
        by_cases hfil : filterHit fl fn = true
        · rw [if_pos hfil] at h
          intro l hl
          rcases ih h l hl with hl2 | hl2
          · exact Or.inl hl2
          · exact Or.inr (by simp [hl2])
        · rw [if_neg hfil] at h
          cases hadd : adding_to_tree s i fn with
          | error e2 => rw [hadd] at h; cases h
          | ok s3 =>
            rw [hadd] at h
            have h' : genLoop (some fl) rest s3 none = .ok s2 := h
            exact step hadd h'

/-! ## C4: filtered labels versus unfiltered labels -/

/-- Counterexample to C4 as stated: on
`[(0,"A"),(1,"B"),(2,"C"),(1,"D")]` with filter `["C"]`, the filtered tree
contains a node `D` (the suppressed `C` no longer triggers the ascent, so
`D` becomes a sibling of `B`), while the unfiltered tree discards `D` via
the ascent rule — so the filtered label set is not a subset of the
unfiltered one. -/
theorem c4_not_subset_of_unfiltered_cex :
    generate_tree [((0 : Int), "A"), (1, "B"), (2, "C"), (1, "D")] (some ["C"])
        = .ok (some (T.mk "A" [T.mk "B" [], T.mk "D" []])) ∧
      generate_tree [((0 : Int), "A"), (1, "B"), (2, "C"), (1, "D")] none
        = .ok (some (T.mk "A" [T.mk "B" [T.mk "C" []]])) ∧
      "D" ∈ preT (T.mk "A" [T.mk "B" [], T.mk "D" []]) ∧
      "D" ∉ preT (T.mk "A" [T.mk "B" [T.mk "C" []]]) :=
  ⟨rfl, rfl, by decide, by decide⟩

/-- Every node label of a tree produced by `generate_tree` (with or
without a filter list) is the label of some input entry. -/
lemma generate_tree_labels (data : List (Int × String)) (fl? : Option (List String))
    (t : T) (h : generate_tree data fl? = .ok (some t)) :
    ∀ l ∈ preT t, l ∈ data.map Prod.snd := by
  unfold generate_tree at h
  cases hg : genLoop fl? data { rooted := false, stack := [], lvl := 0 } none with
  | error e => rw [hg] at h; cases h
  | ok s =>
    rw [hg] at h
    have h2 : (if s.rooted = true then collapse s.stack else none) = some t :=
      Except.ok.inj h
    by_cases hr : s.rooted = true
    · rw [if_pos hr] at h2
      intro l hl
      cases hs : s.stack with
      | nil => rw [hs] at h2; cases h2
      | cons f r =>
        rw [hs] at h2
        simp only [collapse, Option.some.injEq] at h2
        subst h2
        have hl2 : l ∈ stackPre s.stack := by
          rw [hs, ← collapseGo_pre]
          exact hl
        rcases genLoop_labels fl? data hg l hl2 with hl3 | hl3
        · simp [stackPre] at hl3
        · exact hl3
    · rw [if_neg hr] at h2
      cases h2

/-- C4 amended: for every entry sequence and filter list, every node label
of the filtered tree is the label of some input entry (the unfiltered
tree's label set can be strictly smaller, since ascent entries' labels are
discarded from it but may materialise under filtering). -/
theorem c4_filtered_labels_from_input (data : List (Int × String)) (fl : List String)
    (t : T) (h : generate_tree data (some fl) = .ok (some t)) :
    ∀ l ∈ preT t, l ∈ data.map Prod.snd :=
  generate_tree_labels data (some fl) t h

/-- Witness for the amended C4: the one-entry run `[(0,"A")]` with the
empty filter list builds the single-node tree `A`, whose only label is the
input label. -/
theorem c4_filtered_labels_from_input_witness :
    generate_tree [((0 : Int), "A")] (some []) = .ok (some (T.mk "A" [])) ∧
      ∀ l ∈ preT (T.mk "A" []), l ∈ ([((0 : Int), "A")].map Prod.snd) :=
  ⟨rfl, c4_filtered_labels_from_input [((0 : Int), "A")] [] (T.mk "A" []) rfl⟩

/-! ## C7: a nonzero-depth first entry -/

/-- Counterexample to C7 as stated: a first entry of depth 1 is accepted
without any diagnostic.  On `[(1,"X"),(0,"A"),(1,"B")]` the run succeeds
and silently returns the well-formed tree `A → B` (the entry `X` vanished
into a detached node); on `[(1,"X")]` alone the run succeeds with no
error, returning no tree at all (`tree` stayed `None`). -/
theorem c7_silently_accepted_cex :
    generate_tree [((1 : Int), "X"), (0, "A"), (1, "B")] none
        = .ok (some (T.mk "A" [T.mk "B" []])) ∧
      generate_tree [((1 : Int), "X")] none = .ok none :=
  ⟨rfl, rfl⟩

/-- A step on a non-zero stated depth never sets the `tree` variable. -/
lemma adding_to_tree_rooted {s s2 : BState} {index : Int} {function : String}
    (hi : index ≠ 0) (h : adding_to_tree s index function = .ok s2) :
    s2.rooted = s.rooted := by
  unfold adding_to_tree at h
  rw [if_neg hi] at h
  by_cases h1 : index = s.lvl + 1
  · rw [if_pos h1] at h
    cases h
    rfl
  · rw [if_neg h1] at h
    by_cases h2 : index < s.lvl
    · rw [if_pos h2] at h
      cases h3 : popK (s.lvl - index).toNat s.stack with
      | error e => rw [h3] at h; cases h
      | ok st => rw [h3] at h; cases h; rfl
    · rw [if_neg h2] at h
      by_cases h4 : index = s.lvl
      · rw [if_pos h4] at h
        cases h5 : popOne s.stack with
        | error e => rw [h5] at h; cases h
        | ok st => rw [h5] at h; cases h; rfl
      · rw [if_neg h4] at h
        cases h6 : s.stack with
        | nil => rw [h6] at h; cases h
        | cons f tl => rw [h6] at h; cases h

/-- If no processed entry has stated depth 0, the `tree` variable is never
set during the loop. -/
lemma genLoop_rooted_of_no_zero (fl? : Option (List String)) :
    ∀ (data : List (Int × String)) {s : BState} {nx : Option Int} {s2 : BState},
      (∀ p ∈ data, p.1 ≠ 0) → genLoop fl? data s nx = .ok s2 → s2.rooted = s.rooted := by
  intro data
  induction data with
  | nil =>
    intro s nx s2 _ h
    simp only [genLoop, Except.ok.injEq] at h
    subst h
    rfl
  | cons e rest ih =>
    obtain ⟨i, fn⟩ := e
    intro s nx s2 hz h
    have hi : i ≠ 0 := hz (i, fn) (by simp)
    have hz' : ∀ p ∈ rest, p.1 ≠ 0 := fun p hp => hz p (by simp [hp])
    cases fl? with
    | none =>
      rw [genLoop] at h
      cases hadd : adding_to_tree s i fn with
      | error e2 => rw [hadd] at h; cases h
      | ok s3 =>
        rw [hadd] at h
        have h' : genLoop none rest s3 nx = .ok s2 := h
        rw [ih hz' h', adding_to_tree_rooted hi hadd]
    | some fl =>
      rw [genLoop] at h
      by_cases hskip : skipDesc nx i = true
      · rw [if_pos hskip] at h
        exact ih hz' h
      · rw [if_neg hskip] at h
        by_cases hfil : filterHit fl fn = true
        · rw [if_pos hfil] at h
          exact ih hz' h
        · rw [if_neg hfil] at h
          cases hadd : adding_to_tree s i fn with
          | error e2 => rw [hadd] at h; cases h
          | ok s3 =>
            rw [hadd] at h
            have h' : genLoop (some fl) rest s3 none = .ok s2 := h
            rw [ih hz' h', adding_to_tree_rooted hi hadd]

/-- C7 amended: a first entry with nonzero stated depth is not surfaced by
any diagnostic.  A depth-1 first entry is accepted silently, creating a
detached node while the `tree` variable stays unset; more generally, as
long as no entry of stated depth 0 is processed, the run either returns no
tree at all (`None`, never a well-formed tree) or aborts with an error
raised by a later entry. -/
theorem c7_no_zero_no_tree :
    (∀ (function : String),
        adding_to_tree { rooted := false, stack := [], lvl := 0 } 1 function
          = .ok { rooted := false, stack := [{ label := function, children := [] }],
                  lvl := 1 }) ∧
    (∀ (data : List (Int × String)) (fl? : Option (List String)),
        (∀ p ∈ data, p.1 ≠ 0) →
        generate_tree data fl? = .ok none ∨ ∃ e, generate_tree data fl? = .error e) := by
  constructor
  · intro function
    rfl
  · intro data fl? hz
    unfold generate_tree
    cases hg : genLoop fl? data { rooted := false, stack := [], lvl := 0 } none with
    | error e => exact Or.inr ⟨e, rfl⟩
    | ok s =>
      left
      have hroot : s.rooted = false := genLoop_rooted_of_no_zero fl? data hz hg
      show (Except.ok (if s.rooted = true then collapse s.stack else none)
          : Except Err (Option T)) = Except.ok none
      rw [hroot]
      rfl

/-- Witness for the amended C7 on the concrete run `[(1,"X")]`. -/
theorem c7_no_zero_no_tree_witness :
    adding_to_tree { rooted := false, stack := [], lvl := 0 } 1 "X"
        = .ok { rooted := false, stack := [{ label := "X", children := [] }], lvl := 1 } ∧
      (generate_tree [((1 : Int), "X")] none = .ok none ∨
        ∃ e, generate_tree [((1 : Int), "X")] none = .error e) :=
  ⟨c7_no_zero_no_tree.1 "X",
    c7_no_zero_no_tree.2 [((1 : Int), "X")] none (by decide)⟩

/-! ## C5: pre-order round trip -/

/-- Strictly valid adjacency after a given level: each entry descends one
level (`index = previous + 1`) or repeats a strictly positive level
(`index = previous ≥ 1`, the sibling rule away from the root). -/
def chainOkB : Int → List (Int × String) → Bool
  | _, [] => true
  | d, e :: rest => (e.1 == d + 1 || (e.1 == d && decide (1 ≤ d))) && chainOkB e.1 rest

lemma exists_two_cons {α : Type} (l : List α) (h : 2 ≤ l.length) :
    ∃ a b r, l = a :: b :: r := by
  cases l with
  | nil => simp at h
  | cons a t =>
    cases t with
    | nil => simp at h
    | cons b r => exact ⟨a, b, r, rfl⟩

/-- Invariant run of the unfiltered loop over a strictly valid adjacency
chain: no error occurs, the state invariants are maintained, and the
stored label sequence grows by exactly the consumed labels in order. -/
lemma genLoop_chain : ∀ (rest : List (Int × String)) (s : BState),
    chainOkB s.lvl rest = true → s.rooted = true → 0 ≤ s.lvl →
    s.stack.length = s.lvl.toNat + 1 →
    ∃ s2, genLoop none rest s none = .ok s2 ∧ s2.rooted = true ∧ 0 ≤ s2.lvl ∧
      s2.stack.length = s2.lvl.toNat + 1 ∧
      stackPre s2.stack = stackPre s.stack ++ rest.map Prod.snd := by
  intro rest
  induction rest with
  | nil =>
    intro s _ hr h0 hl
    exact ⟨s, rfl, hr, h0, hl, by simp⟩
  | cons e rest ih =>
    obtain ⟨i, fn⟩ := e
    intro s hc hr h0 hl
    simp only [chainOkB, Bool.and_eq_true, Bool.or_eq_true, beq_iff_eq,
      decide_eq_true_eq] at hc
    obtain ⟨hstep, hchain⟩ := hc
    rcases hstep with hd | ⟨hs, h1⟩
    · have hadd : adding_to_tree s i fn
          = .ok { rooted := s.rooted, stack := { label := fn, children := [] } :: s.stack,
                  lvl := s.lvl + 1 } := by
        unfold adding_to_tree
        rw [if_neg (by omega), if_pos hd]
      obtain ⟨s2, hg, hr2, h02, hl2, hpre⟩ := ih
        { rooted := s.rooted, stack := { label := fn, children := [] } :: s.stack,
          lvl := s.lvl + 1 }
        (hd ▸ hchain) hr (by simp only []; omega)
        (by simp only [List.length_cons, hl]; omega)
      refine ⟨s2, ?_, hr2, h02, hl2, ?_⟩
      · rw [genLoop, hadd]
        exact hg
      · rw [hpre]
        simp [stackPre, preF]
    · have hlen2 : 2 ≤ s.stack.length := by omega
      obtain ⟨f, g, r, hst⟩ := exists_two_cons s.stack hlen2
      have hadd : adding_to_tree s i fn
          = .ok { rooted := s.rooted,
                  stack := { label := fn, children := [] }
                    :: { label := g.label, children := g.children ++ [f.toT] } :: r,
                  lvl := s.lvl } := by
        unfold adding_to_tree
        rw [if_neg (by omega), if_neg (by omega), if_neg (by omega), if_pos hs, hst]
        rfl
      obtain ⟨s2, hg, hr2, h02, hl2, hpre⟩ := ih
        { rooted := s.rooted,
          stack := { label := fn, children := [] }
            :: { label := g.label, children := g.children ++ [f.toT] } :: r,
          lvl := s.lvl }
        (hs ▸ hchain) hr h0
        (by
          rw [hst] at hl
          simp only [List.length_cons] at hl ⊢
          omega)
      refine ⟨s2, ?_, hr2, h02, hl2, ?_⟩
      · rw [genLoop, hadd]
        exact hg
      · rw [hpre]
        have h5 : stackPre ({ label := fn, children := [] }
              :: { label := g.label, children := g.children ++ [f.toT] } :: r)
            = stackPre (f :: g :: r) ++ [fn] := by
          rw [stackPre, stackPre_merge]
          simp [preF]
        rw [h5, ← hst]
        simp

/-- Counterexample to C5 as stated: the sequence `[(0,"A"),(0,"B")]` obeys
the §4.2 transition conditions step by step (the second entry repeats the
current level, `index == current_level`), yet the builder silently drops
`B` — the `index == 0` branch ignores it — so the pre-order label sequence
is `["A"]`, not `["A","B"]`. -/
theorem c5_depth_zero_repeat_cex :
    generate_tree [((0 : Int), "A"), (0, "B")] none = .ok (some (T.mk "A" [])) ∧
      preT (T.mk "A" []) ≠ ["A", "B"] :=
  ⟨rfl, by decide⟩

/-- C5 amended: for every entry sequence starting at depth 0 whose
remaining entries each descend exactly one level or repeat a strictly
positive level (the sibling rule away from depth 0), the unfiltered
builder succeeds and the resulting tree's pre-order label sequence equals
the input label sequence exactly.  Depth-0 repeats must be excluded: they
are silently discarded by the `index == 0` branch. -/
theorem c5_preorder_roundtrip (function : String) (rest : List (Int × String))
    (hc : chainOkB 0 rest = true) :
    ∃ t, generate_tree (((0 : Int), function) :: rest) none = .ok (some t) ∧
      preT t = function :: rest.map Prod.snd := by
  have hstep : genLoop none (((0 : Int), function) :: rest)
      { rooted := false, stack := [], lvl := 0 } none
      = genLoop none rest
          { rooted := true, stack := [{ label := function, children := [] }], lvl := 0 }
          none := rfl
  obtain ⟨s2, hg, hr2, _h02, hl2, hpre⟩ := genLoop_chain rest
    { rooted := true, stack := [{ label := function, children := [] }], lvl := 0 }
    hc rfl (by simp only []; omega) (by simp)
  obtain ⟨f, r, hsf⟩ : ∃ f r, s2.stack = f :: r := by
    cases hstk : s2.stack with
    | nil =>
      rw [hstk] at hl2
      simp at hl2
    | cons f r => exact ⟨f, r, rfl⟩
  refine ⟨collapseGo f r, ?_, ?_⟩
  · unfold generate_tree
    rw [hstep, hg]
    show (Except.ok (if s2.rooted = true then collapse s2.stack else none)
        : Except Err (Option T)) = .ok (some (collapseGo f r))
    rw [hr2, if_pos rfl, hsf]
    rfl
  · rw [collapseGo_pre, ← hsf, hpre]
    simp [stackPre, preF]

/-- Witness for the amended C5: the chain `[(0,"A"),(1,"B"),(1,"C")]`
round-trips to pre-order `["A","B","C"]`. -/
theorem c5_preorder_roundtrip_witness :
    chainOkB 0 [((1 : Int), "B"), (1, "C")] = true ∧
      ∃ t, generate_tree (((0 : Int), "A") :: [((1 : Int), "B"), (1, "C")]) none
          = .ok (some t) ∧
        preT t = "A" :: [((1 : Int), "B"), (1, "C")].map Prod.snd :=
  ⟨by decide, c5_preorder_roundtrip "A" [((1 : Int), "B"), (1, "C")] (by decide)⟩

/-! ## C8: the parser's depth window on canonical record lines -/

/-- A canonical wt record line, decomposed: two leading tokens, the depth
marker `[  d]` (two spaces, one digit), then the label token. -/
structure Row where
  t0 : List Char
  t1 : List Char
  d : Char
  label : List Char
deriving DecidableEq

/-- A token admissible around the depth marker: non-empty, containing no
whitespace and no opening bracket. -/
def goodTok (t : List Char) : Bool :=
  !t.isEmpty && t.all (fun c => !isWs c && c ≠ '[')

/-- Well-formedness of a canonical row. -/
def rowOk (r : Row) : Bool :=
  goodTok r.t0 && goodTok r.t1 && isDigitCh r.d && goodTok r.label

/-- The raw text of a canonical row, e.g. `"23 0 [  2] mod!fn"`. -/
def rowLine (r : Row) : List Char :=
  r.t0 ++ ' ' :: (r.t1 ++ ' ' :: '[' :: ' ' :: ' ' :: r.d :: ']' :: ' ' :: r.label)

/-- The recorded depth of a canonical row. -/
def rowVal (r : Row) : Nat := r.d.toNat - 48

/-- The entry a canonical row parses to. -/
def rowEntry (r : Row) : Int × String := ((rowVal r : Nat), String.mk r.label)

lemma goodTok_ne_nil {t : List Char} (h : goodTok t = true) : t ≠ [] := by
  simp only [goodTok, Bool.and_eq_true, Bool.not_eq_true', List.isEmpty_eq_false] at h
  exact h.1

lemma goodTok_no_ws {t : List Char} (h : goodTok t = true) : ∀ c ∈ t, isWs c = false := by
  simp only [goodTok, Bool.and_eq_true, List.all_eq_true, Bool.not_eq_true',
    decide_eq_true_eq] at h
  exact fun c hc => (h.2 c hc).1

lemma goodTok_no_bracket {t : List Char} (h : goodTok t = true) : ∀ c ∈ t, c ≠ '[' := by
  simp only [goodTok, Bool.and_eq_true, List.all_eq_true, Bool.not_eq_true',
    decide_eq_true_eq] at h
  exact fun c hc => (h.2 c hc).2

lemma digitCh_bounds {c : Char} (h : isDigitCh c = true) :
    48 ≤ c.toNat ∧ c.toNat ≤ 57 := by
  simpa [isDigitCh] using h

lemma digitCh_ne {c : Char} (h : isDigitCh c = true) (d : Char)
    (hd : ¬ (48 ≤ d.toNat ∧ d.toNat ≤ 57)) : c ≠ d := by
  intro he
  subst he
  exact hd (digitCh_bounds h)

lemma isWs_of_digitCh {c : Char} (h : isDigitCh c = true) : isWs c = false := by
  have h1 : c ≠ ' ' := digitCh_ne h ' ' (by decide)
  have h2 : c ≠ '\t' := digitCh_ne h '\t' (by decide)
  have h3 : c ≠ '\n' := digitCh_ne h '\n' (by decide)
  have h4 : c ≠ '\r' := digitCh_ne h '\r' (by decide)
  have h5 : c ≠ '\x0b' := digitCh_ne h '\x0b' (by decide)
  have h6 : c ≠ '\x0c' := digitCh_ne h '\x0c' (by decide)
  simp [isWs, h1, h2, h3, h4, h5, h6]

/-- Splitting a whitespace-free word followed by a space: the word is
emitted (after the pending accumulator) and splitting continues. -/
lemma pySplitAux_token : ∀ (t cur rest : List Char),
    (∀ c ∈ t, isWs c = false) → cur ++ t ≠ [] →
    pySplitAux cur (t ++ ' ' :: rest) = (cur.reverse ++ t) :: pySplitAux [] rest := by
  intro t
  induction t with
  | nil =>
    intro cur rest _ hne
    have hcur : cur ≠ [] := by simpa using hne
    simp only [List.nil_append, pySplitAux]
    rw [if_pos (by decide), if_neg (by simpa [List.isEmpty_iff] using hcur)]
    simp
  | cons c t ih =>
    intro cur rest hws hne
    have hc : isWs c = false := hws c (by simp)
    simp only [List.cons_append, pySplitAux]
    rw [if_neg (by simp [hc])]
    show pySplitAux (c :: cur) (t ++ ' ' :: rest) = (cur.reverse ++ c :: t) :: pySplitAux [] rest
    rw [ih (c :: cur) rest (fun x hx => hws x (by simp [hx])) (by simp)]
    simp

/-- Splitting a final whitespace-free word: it is emitted alone. -/
lemma pySplitAux_last : ∀ (t cur : List Char),
    (∀ c ∈ t, isWs c = false) → cur ++ t ≠ [] →
    pySplitAux cur t = [cur.reverse ++ t] := by
  intro t
  induction t with
  | nil =>
    intro cur _ hne
    have hcur : cur ≠ [] := by simpa using hne
    simp only [pySplitAux]
    rw [if_neg (by simpa [List.isEmpty_iff] using hcur)]
    simp
  | cons c t ih =>
    intro cur hws hne
    have hc : isWs c = false := hws c (by simp)
    simp only [pySplitAux]
    rw [if_neg (by simp [hc])]
    rw [ih (c :: cur) (fun x hx => hws x (by simp [hx])) (by simp)]
    simp

/-- `line.split()` on a canonical record line yields the five words the
source indexes: the two leading tokens, `"["`, `"d]"`, and the label. -/
lemma pySplit_rowLine (r : Row) (hok : rowOk r = true) :
    pySplit (rowLine r) = [r.t0, r.t1, ['['], [r.d, ']'], r.label] := by
  simp only [rowOk, Bool.and_eq_true] at hok
  obtain ⟨⟨⟨h0, h1⟩, hd⟩, hl⟩ := hok
  unfold pySplit rowLine
  rw [pySplitAux_token r.t0 [] _ (goodTok_no_ws h0)
    (by simpa using goodTok_ne_nil h0)]
  rw [pySplitAux_token r.t1 [] _ (goodTok_no_ws h1)
    (by simpa using goodTok_ne_nil h1)]
  have hstep : pySplitAux [] ('[' :: ' ' :: ' ' :: r.d :: ']' :: ' ' :: r.label)
      = ['['] :: [r.d, ']'] :: pySplitAux [] r.label := by
    simp only [pySplitAux]
    rw [if_neg (by decide), if_pos (by decide), if_neg (by simp), if_pos (by decide),
      if_pos (by decide), if_neg (by simp [isWs_of_digitCh hd]),
      if_neg (by decide), if_pos (by decide), if_neg (by simp)]
    simp
  rw [hstep, pySplitAux_last r.label [] (goodTok_no_ws hl)
    (by simpa using goodTok_ne_nil hl)]
  simp

lemma markerAt_ne (D : Nat) (c : Char) (rest : List Char) (hc : c ≠ '[') :
    markerAt D (c :: rest) = false := by
  match rest with
  | [] => rfl
  | [_] => rfl
  | [_, _] => rfl
  | _ :: _ :: _ :: _ => simp [markerAt, hc]

lemma regexHit_cons (D : Nat) (c : Char) (rest : List Char) (hc : c ≠ '[') :
    regexHit D (c :: rest) = regexHit D rest := by
  rw [regexHit, markerAt_ne D c rest hc]
  simp

lemma regexHit_no_bracket (D : Nat) : ∀ (l : List Char), (∀ c ∈ l, c ≠ '[') →
    regexHit D l = false := by
  intro l
  induction l with
  | nil => intro _; rfl
  | cons c rest ih =>
    intro h
    rw [regexHit_cons D c rest (h c (by simp))]
    exact ih (fun x hx => h x (by simp [hx]))

lemma regexHit_append (D : Nat) : ∀ (pre rest : List Char), (∀ c ∈ pre, c ≠ '[') →
    regexHit D (pre ++ rest) = regexHit D rest := by
  intro pre
  induction pre with
  | nil => intro rest _; rfl
  | cons c pre ih =>
    intro rest h
    rw [List.cons_append, regexHit_cons D c _ (h c (by simp))]
    exact ih rest (fun x hx => h x (by simp [hx]))

/-- The regular expression search on a canonical record line matches
exactly when the recorded digit is inside the class `[0-D]`. -/
lemma regexHit_rowLine (D : Nat) (r : Row) (hok : rowOk r = true) :
    regexHit D (rowLine r) = classHit D r.d := by
  simp only [rowOk, Bool.and_eq_true] at hok
  obtain ⟨⟨⟨h0, h1⟩, hd⟩, hl⟩ := hok
  have hdb : r.d ≠ '[' := digitCh_ne hd '[' (by decide)
  unfold rowLine
  rw [regexHit_append D r.t0 _ (goodTok_no_bracket h0),
    regexHit_cons D ' ' _ (by decide),
    regexHit_append D r.t1 _ (goodTok_no_bracket h1),
    regexHit_cons D ' ' _ (by decide)]
  rw [regexHit]
  have hm : markerAt D ('[' :: ' ' :: ' ' :: r.d :: ']' :: ' ' :: r.label)
      = classHit D r.d := by
    simp [markerAt]
  rw [hm]
  have htail : regexHit D (' ' :: ' ' :: r.d :: ']' :: ' ' :: r.label) = false := by
    apply regexHit_no_bracket
    intro c hc
    simp only [List.mem_cons] at hc
    rcases hc with rfl | rfl | rfl | rfl | rfl | hc
    · decide
    · decide
    · exact hdb
    · decide
    · decide
    · exact goodTok_no_bracket hl c hc
  rw [htail]
  simp

/-- Inside the class bounds, the regular-expression class test coincides
with the depth comparison `rowVal ≤ D`. -/
lemma classHit_eq {D : Nat} {d : Char} (hd : isDigitCh d = true) :
    classHit D d = decide (d.toNat - 48 ≤ D) := by
  obtain ⟨hlo, hhi⟩ := digitCh_bounds hd
  by_cases h : d.toNat - 48 ≤ D
  · have h2 : d.toNat ≤ 48 + D := by omega
    simp [classHit, h, h2, hlo]
  · have h2 : ¬ d.toNat ≤ 48 + D := by omega
    simp [classHit, h, h2]

/-- Stripping the bracket from the depth word of a canonical row. -/
lemma filter_depth_word {d : Char} (hd : isDigitCh d = true) :
    [d, ']'].filter (fun c => c ≠ ']') = [d] := by
  have hne : d ≠ ']' := digitCh_ne hd ']' (by decide)
  simp [List.filter, hne]

/-- `int()` on the stripped depth word of a canonical row. -/
lemma parsePyInt_digit {d : Char} (hd : isDigitCh d = true) :
    parsePyInt [d] = some ((d.toNat - 48 : Nat) : Int) := by
  have h1 : d ≠ '-' := digitCh_ne hd '-' (by decide)
  have h2 : d ≠ '+' := digitCh_ne hd '+' (by decide)
  simp [parsePyInt, h1, h2, digitsToNatGo, hd]

/-- The parser loop over canonical record lines: it never raises, keeps
exactly the rows whose recorded depth is at most `D` in input order, and
records their modules in first-seen order. -/
lemma parseLoop_rows (D : Nat) : ∀ (rows : List Row) (acc : List (Int × String))
    (ms : List String), (∀ r ∈ rows, rowOk r = true) →
    parseLoop D (rows.map rowLine) acc ms
      = .ok (acc ++ (rows.filter (fun r => rowVal r ≤ D)).map rowEntry,
          (rows.filter (fun r => rowVal r ≤ D)).foldl
            (fun m r => adding_to_module_list m (String.mk r.label)) ms) := by
  intro rows
  induction rows with
  | nil =>
    intro acc ms _
    simp [parseLoop]
  | cons r rows ih =>
    intro acc ms hok
    have hr := hok r (by simp)
    have hrest : ∀ x ∈ rows, rowOk x = true := fun x hx => hok x (by simp [hx])
    have hd : isDigitCh r.d = true := by
      simp only [rowOk, Bool.and_eq_true] at hr
      exact hr.1.2
    rw [List.map_cons, parseLoop, regexHit_rowLine D r hr]
    by_cases hkeep : rowVal r ≤ D
    · rw [classHit_eq hd, if_pos (by simpa [rowVal] using hkeep)]
      have hw3 : (pySplit (rowLine r)).get? 3 = some [r.d, ']'] := by
        rw [pySplit_rowLine r hr]
        rfl
      have hw4 : (pySplit (rowLine r)).get? 4 = some r.label := by
        rw [pySplit_rowLine r hr]
        rfl
      simp only [hw3, filter_depth_word hd, parsePyInt_digit hd, hw4]
      rw [ih _ _ hrest]
      rw [List.filter_cons_of_pos (by simpa [rowVal] using hkeep)]
      simp [rowEntry, rowVal]
    · rw [classHit_eq hd, if_neg (by simpa [rowVal] using hkeep)]
      rw [ih _ _ hrest]
      rw [List.filter_cons_of_neg (by simpa [rowVal] using hkeep)]

/-- Counterexample to C8 as stated: the record line exhibited by the
specification, `"0:000> [   2] module!func"` (three spaces inside the
bracket, the marker as 2nd and 3rd whitespace tokens), is never matched by
the parser's regular expression `\[  [0-D]`: parsing it als sole input
raises the empty-result error for `D = 2` and even for `D = 9`, instead of
being included for `D ≥ 2`. -/
theorem c8_spec_example_line_cex :
    parse_input_file ["0:000> [   2] module!func".toList] 2
        = .error .emptyResultError ∧
      parse_input_file ["0:000> [   2] module!func".toList] 9
        = .error .emptyResultError :=
  ⟨rfl, rfl⟩

/-- C8 amended: on canonical record lines as the code actually consumes
them (two leading tokens, the depth marker `[  d]` with exactly two spaces
— split by `line.split()` into the words `[` and `d]` at indices 2 and 3 —
then the label as 5th word), the parser with maximum depth `D` (1–9)
produces exactly the ordered subsequence of entries whose recorded depth
is at most `D`, together with their modules in first-seen order, and
raises the empty-result error when that subsequence is empty.  In
particular a depth-2 record is excluded for `D = 1` and included for
`D ≥ 2`. -/
theorem c8_depth_window (rows : List Row) (D : Nat)
    (_hD1 : 1 ≤ D) (_hD9 : D ≤ 9) (hok : ∀ r ∈ rows, rowOk r = true) :
    (rows.filter (fun r => rowVal r ≤ D) = [] →
      parse_input_file (rows.map rowLine) D = .error .emptyResultError) ∧
    (rows.filter (fun r => rowVal r ≤ D) ≠ [] →
      parse_input_file (rows.map rowLine) D
        = .ok ((rows.filter (fun r => rowVal r ≤ D)).map rowEntry,
            (rows.filter (fun r => rowVal r ≤ D)).foldl
              (fun m r => adding_to_module_list m (String.mk r.label)) [])) := by
  have hloop := parseLoop_rows D rows [] [] hok
  constructor
  · intro hemp
    unfold parse_input_file
    rw [hloop, hemp]
    rfl
  · intro hne
    unfold parse_input_file
    rw [hloop]
    cases hk : rows.filter (fun r => rowVal r ≤ D) with
    | nil => exact absurd hk hne
    | cons a t => rfl

/-- The canonical form of the specification's example record. -/
def c8Row : Row :=
  { t0 := "0:000>".toList, t1 := "0".toList, d := '2', label := "module!func".toList }

/-- Witness for the amended C8 at the canonical depth-2 record
`"0:000> 0 [  2] module!func"`: excluded for `D = 1` (empty-result
error), included for `D = 2`. -/
theorem c8_depth_window_witness :
    ((∀ r ∈ [c8Row], rowOk r = true) ∧
      parse_input_file ([c8Row].map rowLine) 1 = .error .emptyResultError) ∧
    parse_input_file ([c8Row].map rowLine) 2
      = .ok ([((2 : Int), "module!func")], ["module"]) :=
  ⟨⟨by decide,
      (c8_depth_window [c8Row] 1 (by decide) (by decide) (by decide)).1 (by decide)⟩,
    (c8_depth_window [c8Row] 2 (by decide) (by decide) (by decide)).2 (by decide)⟩

/-! ## C9: attribute resolution and the module side channel -/

/-- Counterexample to C9 as stated: the label `"!func"` has an empty
module part, which `adding_to_module_list` never records (the truthiness
check skips empty strings), so even under correct use of the parser's side
channel `determine_node_att` falls through its loop and raises the
`ValueError` (the spec's `UnknownModuleError`) for that node. -/
theorem c9_empty_module_cex :
    parse_input_file ["x y [  0] !func".toList] 9 = .ok ([((0 : Int), "!func")], []) ∧
      modulePart "!func" = "" ∧
      determine_node_att [] "!func" = none :=
  ⟨rfl, rfl, rfl⟩

/-- Attribute resolution fails exactly when the module part is not in the
recorded module list. -/
lemma determine_node_att_none_iff (ms : List String) (nodeName : String) :
    determine_node_att ms nodeName = none
      ↔ ms.contains (modulePart nodeName) = false := by
  simp only [determine_node_att]
  by_cases h : ms.contains (modulePart nodeName) = true
  · rw [if_pos h, h]
    by_cases h2 : colors.length ≤ ms.indexOf (modulePart nodeName)
    · rw [if_pos h2]
      simp
    · rw [if_neg h2]
      simp
  · rw [if_neg h]
    simp only [Bool.not_eq_true] at h
    simpa using h

lemma adding_to_module_list_subset (ms : List String) (f : String) :
    ∀ x ∈ ms, x ∈ adding_to_module_list ms f := by
  intro x hx
  simp only [adding_to_module_list]
  by_cases h1 : modulePart f ≠ ""
  · rw [if_pos h1]
    by_cases h2 : ms.contains (modulePart f) = true
    · rw [if_pos h2]
      exact hx
    · rw [if_neg h2]
      exact List.mem_append_left _ hx
  · rw [if_neg h1]
    exact hx

lemma adding_to_module_list_mem (ms : List String) (f : String)
    (h : modulePart f ≠ "") : modulePart f ∈ adding_to_module_list ms f := by
  simp only [adding_to_module_list]
  rw [if_pos h]
  by_cases h2 : ms.contains (modulePart f) = true
  · rw [if_pos h2]
    simpa using h2
  · rw [if_neg h2]
    simp

lemma adding_to_module_list_no_empty (ms : List String) (f : String)
    (h : "" ∉ ms) : "" ∉ adding_to_module_list ms f := by
  simp only [adding_to_module_list]
  by_cases h1 : modulePart f ≠ ""
  · rw [if_pos h1]
    by_cases h2 : ms.contains (modulePart f) = true
    · rw [if_pos h2]
      exact h
    · rw [if_neg h2]
      intro hx
      rcases List.mem_append.mp hx with hx | hx
      · exact h hx
      · simp only [List.mem_singleton] at hx
        exact h1 hx.symm
  · rw [if_neg h1]
    exact h

/-- Invariant of the parser loop: every collected entry's module part is
either empty or recorded in the module list, and the empty string is never
recorded. -/
lemma parseLoop_modules (D : Nat) :
    ∀ (lines : List (List Char)) (acc : List (Int × String)) (ms : List String)
      {entries : List (Int × String)} {ms2 : List String},
      parseLoop D lines acc ms = .ok (entries, ms2) →
      (∀ e ∈ acc, modulePart e.2 = "" ∨ modulePart e.2 ∈ ms) → "" ∉ ms →
      (∀ e ∈ entries, modulePart e.2 = "" ∨ modulePart e.2 ∈ ms2) ∧ "" ∉ ms2 := by
  intro lines
  induction lines with
  | nil =>
    intro acc ms entries ms2 h hacc hemp
    simp only [parseLoop, Except.ok.injEq, Prod.mk.injEq] at h
    obtain ⟨h1, h2⟩ := h
    subst h1
    subst h2
    exact ⟨hacc, hemp⟩
  | cons line rest ih =>
    intro acc ms entries ms2 h hacc hemp
    rw [parseLoop] at h
    by_cases hreg : regexHit D line = true
    · rw [if_pos hreg] at h
      cases hw3 : (pySplit line).get? 3 with
      | none => rw [hw3] at h; cases h
      | some w3 =>
        simp only [hw3] at h
        cases hint : parsePyInt (w3.filter (fun c => c ≠ ']')) with
        | none => rw [hint] at h; cases h
        | some idx =>
          simp only [hint] at h
          cases hw4 : (pySplit line).get? 4 with
          | none => rw [hw4] at h; cases h
          | some w4 =>
            simp only [hw4] at h
            refine ih _ _ h ?_ ?_
            · intro e he
              rcases List.mem_append.mp he with he | he
              · rcases hacc e he with h5 | h5
                · exact Or.inl h5
                · exact Or.inr (adding_to_module_list_subset _ _ _ h5)
              · simp only [List.mem_singleton] at he
                subst he
                by_cases hmp : modulePart (String.mk w4) = ""
                · exact Or.inl hmp
                · exact Or.inr (adding_to_module_list_mem _ _ hmp)
            · exact adding_to_module_list_no_empty _ _ hemp
    · rw [if_neg hreg] at h
      exact ih _ _ h hacc hemp

/-- C9 amended: `determine_node_att` fails with the unknown-module error
exactly when the node's module part was not recorded; for a tree built
from a parsed entry sequence with the parser's module side channel, the
error does not occur at nodes with a non-empty module part, but it always
occurs at nodes with an empty module part (the empty module is never
recorded). -/
theorem c9_unknown_module_iff_unrecorded :
    (∀ (ms : List String) (nodeName : String),
        determine_node_att ms nodeName = none
          ↔ ms.contains (modulePart nodeName) = false) ∧
    (∀ (lines : List (List Char)) (D : Nat) (entries : List (Int × String))
        (ms : List String) (fl? : Option (List String)) (t : T),
        parse_input_file lines D = .ok (entries, ms) →
        generate_tree entries fl? = .ok (some t) →
        ∀ l ∈ preT t,
          (modulePart l ≠ "" → determine_node_att ms l ≠ none) ∧
          (modulePart l = "" → determine_node_att ms l = none)) := by
  constructor
  · exact determine_node_att_none_iff
  · intro lines D entries ms fl? t hparse htree l hl
    have hout : (∀ e ∈ entries, modulePart e.2 = "" ∨ modulePart e.2 ∈ ms) ∧
        "" ∉ ms := by
      unfold parse_input_file at hparse
      cases hpl : parseLoop D lines [] [] with
      | error e => rw [hpl] at hparse; cases hparse
      | ok p =>
        obtain ⟨es, m⟩ := p
        rw [hpl] at hparse
        cases es with
        | nil => cases hparse
        | cons a es0 =>
          have h2 : ((a :: es0 : List (Int × String)), m) = (entries, ms) :=
            Except.ok.inj hparse
          injection h2 with h3 h4
          subst h3
          subst h4
          exact parseLoop_modules D lines [] [] hpl (by simp) (by simp)
    have hlab : l ∈ entries.map Prod.snd := generate_tree_labels entries fl? t htree l hl
    obtain ⟨e, he, hel⟩ := List.mem_map.mp hlab
    rcases hout.1 e he with hmp | hmp
    · constructor
      · intro hne
        exact absurd (hel ▸ hmp) hne
      · intro _
        rw [determine_node_att_none_iff]
        have : modulePart l = "" := hel ▸ hmp
        rw [this]
        simp only [Bool.eq_false_iff]
        intro hc
        exact hout.2 (by simpa using hc)
    · constructor
      · intro _ hnone
        rw [determine_node_att_none_iff] at hnone
        rw [← hel] at hnone
        simp only [Bool.eq_false_iff] at hnone
        exact hnone (by simpa using hmp)
      · intro hempty
        exact absurd (hel ▸ hempty : modulePart e.2 = "")
          (by intro hx; rw [hx] at hmp; exact hout.2 hmp)

/-- Witness for the amended C9: parse a single record `"a b [  0] m!f"`,
build the one-node tree from it, and resolve its attribute from the
recorded module list. -/
theorem c9_unknown_module_iff_unrecorded_witness :
    (parse_input_file ["a b [  0] m!f".toList] 9 = .ok ([((0 : Int), "m!f")], ["m"]) ∧
      generate_tree [((0 : Int), "m!f")] none = .ok (some (T.mk "m!f" []))) ∧
    (∀ l ∈ preT (T.mk "m!f" []),
      (modulePart l ≠ "" → determine_node_att ["m"] l ≠ none) ∧
      (modulePart l = "" → determine_node_att ["m"] l = none)) :=
  ⟨⟨rfl, rfl⟩,
    c9_unknown_module_iff_unrecorded.2 ["a b [  0] m!f".toList] 9 [((0 : Int), "m!f")]
      ["m"] none (T.mk "m!f" []) rfl rfl⟩

end Draw
